import Mathlib

/-!
Verification of the auto-blog multi-platform publish orchestrator.

This file is a shallow embedding of the Go sources of the repository:
the article data model and parser (`article/parser.go`), the
placeholder-document builders (`common/rich_content.go`), the
per-adapter body-fill and image-replacement operations
(`segmentfault/publisher.go`, `common/image_handler.go`), the browser
manager's session save and the unified publish flow
(`browser/browser.go`), and the per-platform login checkers
(`cnblogs`/`zhihu` login_checker files).

Pure functions are translated into Lean functions; the page/FS/clipboard
effects are made explicit: the filesystem is a predicate on paths, the
sequence of DOM/keyboard/clipboard actions a function performs is
returned as an explicit event list, and URL polling is modelled by the
list of URLs successive `page.URL()` calls observe.
-/

namespace AutoBlog

/-- `strings.Contains`-style substring membership on character lists:
`pat` occurs in the list (the empty pattern always occurs). -/
def containsSubAux (pat : List Char) : List Char → Bool
  | [] => pat.isEmpty
  | c :: rest => pat.isPrefixOf (c :: rest) || containsSubAux pat rest

/-- Model of Go `strings.Contains s pat`. -/
def strContains (s pat : String) : Bool :=
  containsSubAux pat.data s.data

/-- `article.Image` (article/parser.go). Go `LineIndex` is an `int`,
so it is modelled as `Int`. -/
structure Image where
  altText : String
  relativePath : String
  absolutePath : String
  lineIndex : Int
deriving Repr, DecidableEq

/-- `article.Article` (article/parser.go): title, body lines (`Content`),
file path, parsed images. -/
structure Article where
  title : String
  content : List String
  path : String
  images : List Image
deriving Repr, DecidableEq

/-! ### Placeholder documents (common/rich_content.go) -/

/-- The check performed by the inner loop of
`PrepareTextWithPlaceholders` / `PrepareMarkdownWithPlaceholders`:
some image's `LineIndex` equals the current line number `i`
(the Go loop breaks at the first match, so only existence matters). -/
def isImageLine (images : List Image) (i : Int) : Bool :=
  images.any (fun img => img.lineIndex == i)

/-- The placeholder token `fmt.Sprintf("IMAGE_PLACEHOLDER_%d", n)`. -/
def phTok (n : Nat) : String :=
  "IMAGE_PLACEHOLDER_" ++ Nat.repr n

/-- The loop body shared verbatim by `PrepareTextWithPlaceholders` and
`PrepareMarkdownWithPlaceholders` (common/rich_content.go): walk the
body lines with line counter `i` and placeholder counter `k`; an image
line emits `IMAGE_PLACEHOLDER_<k>` and a newline and bumps `k`, any
other line is emitted unchanged followed by a newline. -/
def prepareAux (images : List Image) : List String → Int → Nat → String
  | [], _, _ => ""
  | line :: rest, i, k =>
    if isImageLine images i then
      phTok k ++ "\n" ++ prepareAux images rest (i + 1) (k + 1)
    else
      line ++ "\n" ++ prepareAux images rest (i + 1) k

/-- `RichContentHandler.PrepareTextWithPlaceholders` (rich_content.go,
the "type" input method used by Juejin and Cnblogs). -/
def PrepareTextWithPlaceholders (art : Article) : String :=
  prepareAux art.images art.content 0 0

/-- `RichContentHandler.PrepareMarkdownWithPlaceholders` (rich_content.go,
the "paste" input method used by Zhihu); its loop is textually identical
to `PrepareTextWithPlaceholders`. -/
def PrepareMarkdownWithPlaceholders (art : Article) : String :=
  prepareAux art.images art.content 0 0

/-- The lines of the placeholder document, in order (each line of the
built string is terminated by `"\n"`, so the document's lines are
exactly this list). -/
def placeholderLinesAux (images : List Image) : List String → Int → Nat → List String
  | [], _, _ => []
  | line :: rest, i, k =>
    if isImageLine images i then
      phTok k :: placeholderLinesAux images rest (i + 1) (k + 1)
    else
      line :: placeholderLinesAux images rest (i + 1) k

def placeholderLines (art : Article) : List String :=
  placeholderLinesAux art.images art.content 0 0

/-- The placeholder tokens emitted by the loop, in emission (= line)
order. -/
def placeholderTokensAux (images : List Image) : List String → Int → Nat → List String
  | [], _, _ => []
  | _line :: rest, i, k =>
    if isImageLine images i then
      phTok k :: placeholderTokensAux images rest (i + 1) (k + 1)
    else
      placeholderTokensAux images rest (i + 1) k

def placeholderTokens (art : Article) : List String :=
  placeholderTokensAux art.images art.content 0 0

/-- Join a list of lines, terminating every line with a newline —
the exact shape of the string the builders produce. -/
def joinLines : List String → String
  | [] => ""
  | l :: rest => l ++ "\n" ++ joinLines rest

/-- The number of body lines whose index is some image's `lineIndex`,
starting the line counter at `i`. -/
def countImageLines (images : List Image) : List String → Int → Nat
  | [], _ => 0
  | _ :: rest, i =>
    (if isImageLine images i then 1 else 0) + countImageLines images rest (i + 1)

theorem prepareAux_eq_joinLines (images : List Image) :
    ∀ (ls : List String) (i : Int) (k : Nat),
      prepareAux images ls i k = joinLines (placeholderLinesAux images ls i k) := by
  intro ls
  induction ls with
  | nil => intro i k; rfl
  | cons line rest ih =>
    intro i k
    simp only [prepareAux, placeholderLinesAux]
    by_cases h : isImageLine images i
    · simp [h, joinLines, ih]
    · simp [h, joinLines, ih]

theorem placeholderLinesAux_length (images : List Image) :
    ∀ (ls : List String) (i : Int) (k : Nat),
      (placeholderLinesAux images ls i k).length = ls.length := by
  intro ls
  induction ls with
  | nil => intro i k; rfl
  | cons line rest ih =>
    intro i k
    simp only [placeholderLinesAux]
    by_cases h : isImageLine images i <;> simp [h, ih]

/-! ### Decimal representation: `Nat.repr` is injective, hence the
placeholder tokens `IMAGE_PLACEHOLDER_<n>` are pairwise distinct. -/

/-- Fuel-free version of core's `Nat.toDigitsCore 10`. -/
def decDigits (n : Nat) : List Char :=
  if h : n / 10 = 0 then [Nat.digitChar (n % 10)]
  else
    have : n / 10 < n := Nat.div_lt_self (by omega) (by omega)
    decDigits (n / 10) ++ [Nat.digitChar (n % 10)]
termination_by n

theorem toDigitsCore_eq_decDigits :
    ∀ (fuel n : Nat) (ds : List Char), n < fuel →
      Nat.toDigitsCore 10 fuel n ds = decDigits n ++ ds := by
  intro fuel
  induction fuel with
  | zero => intro n ds h; omega
  | succ f ih =>
    intro n ds h
    rw [Nat.toDigitsCore, decDigits]
    by_cases h0 : n / 10 = 0
    · simp [h0]
    · have hn : 0 < n := by
        by_contra hc
        have : n = 0 := by omega
        simp [this] at h0
      have hlt : n / 10 < f := by
        have hx : n / 10 < n := Nat.div_lt_self hn (by norm_num)
        omega
      simp only [h0, if_false, dif_neg h0]
      rw [ih (n / 10) _ hlt]
      simp

theorem nat_repr_eq_decDigits (n : Nat) : Nat.repr n = (decDigits n).asString := by
  show (Nat.toDigits 10 n).asString = (decDigits n).asString
  rw [Nat.toDigits, toDigitsCore_eq_decDigits (n + 1) n [] (by omega)]
  simp

/-- Decimal decoding, left inverse of `decDigits`. -/
def decodeDigit (c : Char) : Nat := c.toNat - 48

def decodeDigits (l : List Char) : Nat :=
  l.foldl (fun a c => a * 10 + decodeDigit c) 0

theorem decodeDigit_digitChar (d : Nat) (h : d < 10) :
    decodeDigit (Nat.digitChar d) = d := by
  interval_cases d <;> rfl

theorem decodeDigits_append_last (l : List Char) (c : Char) :
    decodeDigits (l ++ [c]) = decodeDigits l * 10 + decodeDigit c := by
  simp [decodeDigits, List.foldl_append]

theorem decodeDigits_decDigits : ∀ n, decodeDigits (decDigits n) = n := by
  intro n
  induction n using Nat.strong_induction_on with
  | _ n ih =>
    rw [decDigits]
    by_cases h0 : n / 10 = 0
    · have h9 : n < 10 := by omega
      have hmod : n % 10 = n := by omega
      simp only [h0, dif_pos, decodeDigits, List.foldl_cons, List.foldl_nil,
        Nat.zero_mul, Nat.zero_add, hmod]
      exact decodeDigit_digitChar n h9
    · have hn : 0 < n := by
        by_contra hc
        have : n = 0 := by omega
        simp [this] at h0
      have hlt : n / 10 < n := Nat.div_lt_self hn (by norm_num)
      simp only [dif_neg h0]
      rw [decodeDigits_append_last, ih (n / 10) hlt,
        decodeDigit_digitChar _ (by omega)]
      omega

theorem nat_repr_injective : Function.Injective Nat.repr := by
  intro m n h
  rw [nat_repr_eq_decDigits, nat_repr_eq_decDigits] at h
  have hd : decDigits m = decDigits n := by
    have := congrArg String.data h
    simpa [List.asString] using this
  have := congrArg decodeDigits hd
  rwa [decodeDigits_decDigits, decodeDigits_decDigits] at this

theorem phTok_injective : Function.Injective phTok := by
  intro m n h
  apply nat_repr_injective
  have hd := congrArg String.data h
  simp only [phTok, String.data_append] at hd
  have : (Nat.repr m).data = (Nat.repr n).data :=
    List.append_cancel_left hd
  cases hm : Nat.repr m
  cases hn : Nat.repr n
  simp_all

/-! ### Structure of the emitted tokens -/

theorem placeholderTokensAux_eq_range (images : List Image) :
    ∀ (ls : List String) (i : Int) (k : Nat),
      placeholderTokensAux images ls i k =
        (List.range (countImageLines images ls i)).map (fun r => phTok (k + r)) := by
  intro ls
  induction ls with
  | nil => intro i k; rfl
  | cons line rest ih =>
    intro i k
    simp only [placeholderTokensAux, countImageLines]
    by_cases h : isImageLine images i
    · simp only [h, if_true]
      rw [ih (i + 1) (k + 1),
        show (1 : Nat) + countImageLines images rest (i + 1) =
            countImageLines images rest (i + 1) + 1 by omega,
        List.range_succ_eq_map]
      simp only [List.map_cons, List.map_map, Nat.add_zero]
      congr 1
      apply List.map_congr_left
      intro r _
      simp only [Function.comp_apply]
      congr 1
      omega
    · simp only [h, Bool.false_eq_true, if_false, Nat.zero_add]
      exact ih (i + 1) k

theorem placeholderTokensAux_sublist (images : List Image) :
    ∀ (ls : List String) (i : Int) (k : Nat),
      List.Sublist (placeholderTokensAux images ls i k)
        (placeholderLinesAux images ls i k) := by
  intro ls
  induction ls with
  | nil => intro i k; exact List.Sublist.refl _
  | cons line rest ih =>
    intro i k
    simp only [placeholderTokensAux, placeholderLinesAux]
    by_cases h : isImageLine images i
    · simp only [h, if_true]
      exact List.Sublist.cons₂ _ (ih (i + 1) (k + 1))
    · simp only [h, if_false]
      exact List.Sublist.cons _ (ih (i + 1) k)

/-- The window of line indices `[i, i + n)` as `Int`s. -/
def intRange : Int → Nat → List Int
  | _, 0 => []
  | i, n + 1 => i :: intRange (i + 1) n

theorem mem_intRange_iff (x : Int) :
    ∀ (n : Nat) (i : Int), x ∈ intRange i n ↔ i ≤ x ∧ x < i + n := by
  intro n
  induction n with
  | zero => intro i; simp [intRange]
  | succ m ih =>
    intro i
    simp only [intRange, List.mem_cons, ih (i + 1)]
    omega

theorem intRange_nodup : ∀ (n : Nat) (i : Int), (intRange i n).Nodup := by
  intro n
  induction n with
  | zero => intro i; simp [intRange]
  | succ m ih =>
    intro i
    rw [intRange, List.nodup_cons]
    refine ⟨?_, ih (i + 1)⟩
    rw [mem_intRange_iff]
    omega

theorem countImageLines_eq_filter (images : List Image) :
    ∀ (ls : List String) (i : Int),
      countImageLines images ls i =
        ((intRange i ls.length).filter (fun j => isImageLine images j)).length := by
  intro ls
  induction ls with
  | nil => intro i; rfl
  | cons line rest ih =>
    intro i
    show (if isImageLine images i then 1 else 0) + countImageLines images rest (i + 1) = _
    have hr : intRange i (line :: rest).length = i :: intRange (i + 1) rest.length := rfl
    rw [hr, List.filter_cons]
    by_cases h : isImageLine images i
    · simp only [h, if_true, List.length_cons, ih (i + 1)]
      omega
    · simp only [h, Bool.false_eq_true, if_false, ih (i + 1)]
      omega

theorem isImageLine_iff_mem_map (images : List Image) (j : Int) :
    isImageLine images j = true ↔ j ∈ images.map Image.lineIndex := by
  simp only [isImageLine, List.any_eq_true, List.mem_map, beq_iff_eq]

/-- Under the data-model invariant (every image's `lineIndex` is a valid
body-line index and no two images share one), the number of image lines
equals the number of images. -/
theorem countImageLines_eq_length (images : List Image) (ls : List String)
    (h1 : ∀ img ∈ images, 0 ≤ img.lineIndex ∧ img.lineIndex < (ls.length : Int))
    (h2 : images.Pairwise (fun a b => a.lineIndex ≠ b.lineIndex)) :
    countImageLines images ls 0 = images.length := by
  rw [countImageLines_eq_filter]
  have hnd : (images.map Image.lineIndex).Nodup := List.pairwise_map.mpr h2
  have hperm :
      ((intRange 0 ls.length).filter (fun j => isImageLine images j)).Perm
        (images.map Image.lineIndex) := by
    rw [List.perm_ext_iff_of_nodup
      ((intRange_nodup ls.length 0).filter _) hnd]
    intro x
    rw [List.mem_filter, mem_intRange_iff, ← isImageLine_iff_mem_map]
    constructor
    · intro ⟨_, hx⟩; exact hx
    · intro hx
      refine ⟨?_, hx⟩
      rw [isImageLine_iff_mem_map] at hx
      obtain ⟨img, hmem, rfl⟩ := List.mem_map.mp hx
      have := h1 img hmem
      omega
  rw [hperm.length_eq, List.length_map]

theorem isImageLine_congr (l1 l2 : List Image) (h : l1.Perm l2) (i : Int) :
    isImageLine l2 i = isImageLine l1 i := by
  simp only [isImageLine]
  have hiff : (l2.any fun img => img.lineIndex == i) = true ↔
      (l1.any fun img => img.lineIndex == i) = true := by
    simp only [List.any_eq_true]
    exact ⟨fun ⟨x, hx, p⟩ => ⟨x, h.mem_iff.mpr hx, p⟩,
      fun ⟨x, hx, p⟩ => ⟨x, h.mem_iff.mp hx, p⟩⟩
  cases hx : l1.any fun img => img.lineIndex == i
  · rw [← Bool.not_eq_true] at hx ⊢
    intro hc
    exact hx (hiff.mp hc)
  · exact hiff.mpr hx

theorem prepareAux_congr (l1 l2 : List Image) (h : l1.Perm l2) :
    ∀ (ls : List String) (i : Int) (k : Nat),
      prepareAux l2 ls i k = prepareAux l1 ls i k := by
  intro ls
  induction ls with
  | nil => intro i k; rfl
  | cons line rest ih =>
    intro i k
    simp only [prepareAux, isImageLine_congr l1 l2 h i]
    by_cases hi : isImageLine l1 i <;> simp [hi, ih]

/-! ### Claim theorems: the placeholder protocol -/

/-- C1: for every article satisfying the data-model invariant (each
image's `lineIndex` is a valid index into the body lines and no two
images share one), the placeholder document has exactly one line per
body line (the built string is the newline-terminated join of those
lines), and the lines emitted for image positions are exactly the
tokens `IMAGE_PLACEHOLDER_<n>` for `n` in `[0, |images|)` in line
order, pairwise distinct. -/
theorem C1_placeholder_document_shape (art : Article)
    (h1 : ∀ img ∈ art.images, 0 ≤ img.lineIndex ∧ img.lineIndex < (art.content.length : Int))
    (h2 : art.images.Pairwise (fun a b => a.lineIndex ≠ b.lineIndex)) :
    (placeholderLines art).length = art.content.length ∧
    PrepareTextWithPlaceholders art = joinLines (placeholderLines art) ∧
    List.Sublist (placeholderTokens art) (placeholderLines art) ∧
    placeholderTokens art = (List.range art.images.length).map phTok ∧
    (placeholderTokens art).length = art.images.length ∧
    (placeholderTokens art).Nodup := by
  have htok : placeholderTokens art = (List.range art.images.length).map phTok := by
    rw [placeholderTokens, placeholderTokensAux_eq_range,
      countImageLines_eq_length art.images art.content h1 h2]
    simp only [Nat.zero_add]
  refine ⟨placeholderLinesAux_length _ _ _ _,
    prepareAux_eq_joinLines _ _ _ _,
    placeholderTokensAux_sublist _ _ _ _,
    htok, ?_, ?_⟩
  · rw [htok, List.length_map, List.length_range]
  · rw [htok]
    exact (List.nodup_range _).map phTok_injective

/-- Concrete instance used to witness `C1_placeholder_document_shape`. -/
def artW : Article :=
  { title := "t"
    content := ["line0", "![a](./p.png)", "line2"]
    path := "/articles/a.md"
    images := [{ altText := "a", relativePath := "./p.png",
                 absolutePath := "/articles/p.png", lineIndex := 1 }] }

theorem C1_placeholder_document_shape_witness :
    (placeholderLines artW).length = artW.content.length ∧
    PrepareTextWithPlaceholders artW = joinLines (placeholderLines artW) ∧
    List.Sublist (placeholderTokens artW) (placeholderLines artW) ∧
    placeholderTokens artW = (List.range artW.images.length).map phTok ∧
    (placeholderTokens artW).length = artW.images.length ∧
    (placeholderTokens artW).Nodup :=
  C1_placeholder_document_shape artW (by decide) (by decide)

/-- C5: permuting the `images` list does not change the placeholder
document: only the set of `lineIndex` values matters, and the
placeholder numbering follows line order. -/
theorem C5_placeholder_document_perm_invariant (art : Article)
    (images2 : List Image) (h : art.images.Perm images2) :
    PrepareTextWithPlaceholders { art with images := images2 } =
      PrepareTextWithPlaceholders art :=
  prepareAux_congr art.images images2 h art.content 0 0

/-- Concrete two-image article and its image-list swap, witnessing
`C5_placeholder_document_perm_invariant`. -/
def imgA : Image :=
  { altText := "a", relativePath := "./a.png",
    absolutePath := "/articles/a.png", lineIndex := 0 }

def imgB : Image :=
  { altText := "b", relativePath := "./b.png",
    absolutePath := "/articles/b.png", lineIndex := 2 }

def artPerm : Article :=
  { title := "t", content := ["![a](./a.png)", "mid", "![b](./b.png)"],
    path := "/articles/a.md", images := [imgA, imgB] }

theorem C5_placeholder_document_perm_invariant_witness :
    PrepareTextWithPlaceholders { artPerm with images := [imgB, imgA] } =
      PrepareTextWithPlaceholders artPerm :=
  C5_placeholder_document_perm_invariant artPerm [imgB, imgA]
    (List.Perm.swap imgB imgA [])

/-! ### The unified publish flow (browser/browser.go) -/

/-- One `ReplaceTextWithImage` invocation issued by
`Manager.replaceImageByIndex`. -/
structure ReplaceCall where
  platform : String
  placeholder : String
  image : Image
deriving Repr, DecidableEq

/-- `Manager.replaceImageInAllPlatforms` (browser.go): return early if
`imageIndex` is out of range, otherwise compute
`IMAGE_PLACEHOLDER_<imageIndex>` and issue one replace call per open
platform (each per-platform goroutine receives the same placeholder
and image). -/
def replaceImageInAllPlatforms (publishers : List String) (art : Article)
    (imageIndex : Nat) : List ReplaceCall :=
  match art.images.get? imageIndex with
  | none => []
  | some image =>
    publishers.map (fun name =>
      { platform := name
        placeholder := "IMAGE_PLACEHOLDER_" ++ Nat.repr imageIndex
        image := image })

/-- The image-replacement stage of `Manager.unifiedPublishFlow`
(browser.go): iterate the image indices in order, running one
all-platform round per index and waiting for it before the next. -/
def unifiedReplaceStage (publishers : List String) (art : Article) :
    List ReplaceCall :=
  (List.range art.images.length).flatMap (replaceImageInAllPlatforms publishers art)

/-- The platforms dispatched by `unifiedPublishFlow` /
`replaceImageByIndex`. -/
def platformNames : List String :=
  ["掘金", "博客园", "知乎", "SegmentFault"]

/-- `segmentfault.Publisher.fillContent` (segmentfault/publisher.go):
the injected body text is `strings.Join(content, "\n")` — the body
lines verbatim, with no placeholder substitution. -/
def sfFillContentText (content : List String) : String :=
  String.intercalate "\n" content

/-- The body text `segmentfault.Publisher.PublishArticle` injects in
its step 3 (`p.fillContent(art.Content)`). -/
def sfPublishBodyText (art : Article) : String :=
  sfFillContentText art.content

/-- C2 (code bug): on an article with an image, the SegmentFault
adapter's body fill injects the raw body lines — including the
original `![alt](path)` markup — and not the placeholder document;
in particular the `IMAGE_PLACEHOLDER_0` token its own step 4 then
searches for does not occur in the injected text. -/
theorem C2_segmentfault_fills_raw_body :
    sfPublishBodyText artW = "line0\n![a](./p.png)\nline2" ∧
    sfPublishBodyText artW ≠ PrepareMarkdownWithPlaceholders artW ∧
    strContains (sfPublishBodyText artW) "![a](./p.png)" = true ∧
    strContains (sfPublishBodyText artW) "IMAGE_PLACEHOLDER_0" = false := by
  decide

/-- C3 counterexample: the placeholder document built for a one-image,
three-line article is not the claimed string
`"line0\nIMAGE_PLACEHOLDER_0\nline2"` — the builder terminates every
line, including the last, with a newline. -/
theorem C3_counterexample :
    PrepareMarkdownWithPlaceholders artW ≠ "line0\nIMAGE_PLACEHOLDER_0\nline2" := by
  decide

/-- C3 (amended): the placeholder document for the one-image scenario
is `"line0\nIMAGE_PLACEHOLDER_0\nline2\n"` (trailing newline), and the
image-replacement stage invokes each adapter's replace operation
exactly once, with placeholder `IMAGE_PLACEHOLDER_0` and the image
whose source path is the article's single image's absolute path. -/
theorem C3_one_image_scenario :
    PrepareMarkdownWithPlaceholders artW = "line0\nIMAGE_PLACEHOLDER_0\nline2\n" ∧
    unifiedReplaceStage platformNames artW =
      [{ platform := "掘金", placeholder := "IMAGE_PLACEHOLDER_0",
         image := { altText := "a", relativePath := "./p.png",
                    absolutePath := "/articles/p.png", lineIndex := 1 } },
       { platform := "博客园", placeholder := "IMAGE_PLACEHOLDER_0",
         image := { altText := "a", relativePath := "./p.png",
                    absolutePath := "/articles/p.png", lineIndex := 1 } },
       { platform := "知乎", placeholder := "IMAGE_PLACEHOLDER_0",
         image := { altText := "a", relativePath := "./p.png",
                    absolutePath := "/articles/p.png", lineIndex := 1 } },
       { platform := "SegmentFault", placeholder := "IMAGE_PLACEHOLDER_0",
         image := { altText := "a", relativePath := "./p.png",
                    absolutePath := "/articles/p.png", lineIndex := 1 } }] ∧
    (unifiedReplaceStage platformNames artW).countP
      (fun c => c.platform == "SegmentFault") = 1 ∧
    (unifiedReplaceStage platformNames artW).all
      (fun c => c.image.absolutePath == "/articles/p.png") = true := by
  decide

/-! ### The login monitor (cnblogs / zhihu `LoginChecker`) -/

/-- Side effects of the login wait. -/
inductive LoginEvent where
  | saveSession
  | gotoURL (url : String)
  | publishArticles
deriving Repr, DecidableEq

/-- The polling loop of `LoginChecker.CheckAndWaitForLogin`: the
elements of the list are the values successive `page.URL()` calls
observe, one per 1-second tick. The loop returns at the first URL that
no longer matches the login route: it saves the session (when a
callback is installed), navigates back to `originalURL` unless the URL
already matches the editor route, and (zhihu only) publishes the
queued articles. `none` models the unbounded wait (every observed URL
still matched). The returned `Nat` is the index within the full
observation list of the URL that triggered the transition. -/
def loginWaitLoop (loginPat editorPat originalURL : String)
    (hasSave publishAfter : Bool) : List String → Nat → Option (List LoginEvent × Nat)
  | [], _ => none
  | u :: rest, idx =>
    if strContains u loginPat then
      loginWaitLoop loginPat editorPat originalURL hasSave publishAfter rest (idx + 1)
    else
      some ((if hasSave then [LoginEvent.saveSession] else []) ++
        (if strContains u editorPat then [] else [LoginEvent.gotoURL originalURL]) ++
        (if publishAfter then [LoginEvent.publishArticles] else []), idx)

/-- `LoginChecker.CheckAndWaitForLogin` (shape shared by the cnblogs
and zhihu checkers): read the current URL; if it does not match the
login route, return at once with no side effects; otherwise poll until
a non-matching URL appears. -/
def CheckAndWaitForLogin (loginPat editorPat originalURL : String)
    (hasSave publishAfter : Bool) : List String → Option (List LoginEvent × Nat)
  | [] => none
  | u :: rest =>
    if strContains u loginPat then
      loginWaitLoop loginPat editorPat originalURL hasSave publishAfter rest 1
    else
      some ([], 0)

/-- The cnblogs instantiation: login route
`account.cnblogs.com/signin`, editor route `i.cnblogs.com/posts`, no
publish step. -/
def cnblogsCheckAndWaitForLogin (originalURL : String) (hasSave : Bool)
    (urls : List String) : Option (List LoginEvent × Nat) :=
  CheckAndWaitForLogin "account.cnblogs.com/signin" "i.cnblogs.com/posts"
    originalURL hasSave false urls

/-- The zhihu instantiation: login route `www.zhihu.com/signin`,
editor route `zhuanlan.zhihu.com/write`, publishing the queued
articles after a successful login when any are queued. -/
def zhihuCheckAndWaitForLogin (originalURL : String)
    (hasSave hasArticles : Bool) (urls : List String) :
    Option (List LoginEvent × Nat) :=
  CheckAndWaitForLogin "www.zhihu.com/signin" "zhuanlan.zhihu.com/write"
    originalURL hasSave hasArticles urls

/-- C4: on the observation sequence [loginRoute, loginRoute, other]
the login monitor transitions exactly once, at index 2 (the first
non-login URL), and invokes the session-save callback exactly once. -/
theorem C4_login_monitor_single_transition
    (loginPat editorPat originalURL : String) (publishAfter : Bool)
    (u1 u2 u3 : String)
    (h1 : strContains u1 loginPat = true)
    (h2 : strContains u2 loginPat = true)
    (h3 : strContains u3 loginPat = false) :
    ∃ events,
      CheckAndWaitForLogin loginPat editorPat originalURL true publishAfter
        [u1, u2, u3] = some (events, 2) ∧
      events.count LoginEvent.saveSession = 1 := by
  simp only [CheckAndWaitForLogin, loginWaitLoop, h1, h2, h3, if_true,
    Bool.false_eq_true, if_false]
  refine ⟨_, rfl, ?_⟩
  cases he : strContains u3 editorPat <;> cases publishAfter <;>
    simp [List.count_append, List.count_cons, List.count_nil]

theorem C4_login_monitor_single_transition_witness :
    ∃ events,
      CheckAndWaitForLogin "account.cnblogs.com/signin" "i.cnblogs.com/posts"
        "https://i.cnblogs.com/posts/edit" true false
        ["https://account.cnblogs.com/signin?returnUrl=x",
         "https://account.cnblogs.com/signin?returnUrl=y",
         "https://www.cnblogs.com/home"] = some (events, 2) ∧
      events.count LoginEvent.saveSession = 1 :=
  C4_login_monitor_single_transition
    "account.cnblogs.com/signin" "i.cnblogs.com/posts"
    "https://i.cnblogs.com/posts/edit" false
    "https://account.cnblogs.com/signin?returnUrl=x"
    "https://account.cnblogs.com/signin?returnUrl=y"
    "https://www.cnblogs.com/home"
    (by decide) (by decide) (by decide)

/-! ### Session persistence (browser/browser.go `Manager.SaveSession`,
`Manager.Close`) -/

/-- The primitive effects `SaveSession` can perform. `lockMutex` /
`unlockMutex` stand for operations on the manager's `saveMutex`;
`writeStateFile` is the `os.WriteFile` of `<userDataDir>/state.json`. -/
inductive SaveOp where
  | lockMutex
  | unlockMutex
  | readStorageState
  | marshalJSON
  | writeStateFile (path : String)
deriving Repr, DecidableEq

/-- `filepath.Join(userDataDir, "state.json")` (for a clean directory
path the join is plain concatenation with a separator). -/
def stateFilePath (userDataDir : String) : String :=
  userDataDir ++ "/state.json"

/-- The operation trace of `Manager.SaveSession` (browser.go): with a
non-nil context it reads the storage state, and when that succeeds
marshals it and, when marshalling succeeds, writes the state file.
No mutex operation appears anywhere in its body: the `saveMutex`
field of `Manager` is declared but never locked. -/
def saveSessionOps (hasContext storageOk marshalOk : Bool)
    (userDataDir : String) : List SaveOp :=
  if hasContext then
    [SaveOp.readStorageState] ++
      (if storageOk then
        [SaveOp.marshalJSON] ++
          (if marshalOk then [SaveOp.writeStateFile (stateFilePath userDataDir)] else [])
      else [])
  else []

/-- C9 (code bug): a successful `SaveSession` writes the session state
file, yet no execution of `SaveSession` ever acquires (or releases)
any mutex — the `saveMutex` declared on `Manager` for this purpose is
never locked — so concurrent saves (e.g. two platforms' login
monitors finishing simultaneously) can write `state.json`
concurrently, contradicting the claimed mutex guard. -/
theorem C9_save_session_unguarded :
    (∀ d, SaveOp.writeStateFile (stateFilePath d) ∈ saveSessionOps true true true d) ∧
    (∀ c s m d, SaveOp.lockMutex ∉ saveSessionOps c s m d) ∧
    (∀ c s m d, SaveOp.unlockMutex ∉ saveSessionOps c s m d) := by
  refine ⟨fun d => by simp [saveSessionOps], ?_, ?_⟩ <;>
    · intro c s m d
      cases c <;> cases s <;> cases m <;> simp [saveSessionOps]

/-- The value `Manager.SaveSession` returns, together with whether the
state file was actually written. Translated from the Go body: the
`err` returned at the end is the one bound by
`state, err := m.context.StorageState()`; the `data, err :=
json.Marshal(state)` inside the `if err == nil` block declares a NEW
(shadowing) `err`, so marshal and write failures never reach the
return value. -/
def SaveSessionResult (hasContext : Bool)
    (storage : Except String Unit) (marshal : Except String Unit)
    (write : Except String Unit) : Option String × Bool :=
  if hasContext then
    match storage with
    | Except.error e => (some e, false)
    | Except.ok _ =>
      let written :=
        match marshal with
        | Except.error _ => false
        | Except.ok _ =>
          match write with
          | Except.error _ => false
          | Except.ok _ => true
      (none, written)
  else (none, false)

/-- C10: with a non-nil context, `SaveSession`'s return value is
determined solely by the storage-state read — the error of a failed
read, nil otherwise — so when marshalling or writing `state.json`
fails the file is not written and yet `SaveSession` still returns
nil: the failed persistence is never reported to the caller. -/
theorem C10_save_session_swallows_write_errors
    (marshal write : Except String Unit)
    (hfail : ¬(marshal = Except.ok () ∧ write = Except.ok ())) :
    (∀ st : Except String Unit,
      (SaveSessionResult true st marshal write).fst =
        match st with
        | Except.error e => some e
        | Except.ok _ => none) ∧
    (SaveSessionResult true (Except.ok ()) marshal write).snd = false := by
  constructor
  · intro st
    cases st <;> rfl
  · cases marshal with
    | error e => rfl
    | ok u =>
      cases write with
      | error e => rfl
      | ok v => exact absurd ⟨rfl, rfl⟩ hfail

theorem C10_save_session_swallows_write_errors_witness :
    (∀ st : Except String Unit,
      (SaveSessionResult true st (Except.ok ()) (Except.error "disk full")).fst =
        match st with
        | Except.error e => some e
        | Except.ok _ => none) ∧
    (SaveSessionResult true (Except.ok ()) (Except.ok ())
      (Except.error "disk full")).snd = false :=
  C10_save_session_swallows_write_errors (Except.ok ())
    (Except.error "disk full") (fun h => Except.noConfusion h.2)

/-! ### Image replacement and its failure handling -/

/-- DOM/keyboard/clipboard actions performed during image
replacement. -/
inductive AdapterEvent where
  | findSelect (text : String) (found : Bool)
  | deleteKey
  | copyImage (path : String) (ok : Bool)
  | pasteImage
  | logError (msg : String)
  | typeText (s : String)
deriving Repr, DecidableEq

/-- `common.CopyImageToClipboard` (rich_content.go): resolve the path
with `filepath.Abs` (the parser already stores absolute paths, so the
resolution is the identity here) and fail when the file does not
exist; otherwise read it and write it to the clipboard. `fs` is the
set of existing files. -/
def CopyImageToClipboard (fs : String → Bool) (imagePath : String) :
    Except String Unit :=
  if fs imagePath then Except.ok ()
  else Except.error ("图片文件不存在: " ++ imagePath)

/-- `segmentfault.Publisher.ReplaceTextWithImage`
(segmentfault/publisher.go; the Juejin implementation in
juejin/publisher.go has the same step structure): find-and-select the
placeholder in the editor text (fails when absent), delete it, copy
the image to the clipboard (fails when the file is missing), paste.
Returns the result together with the actions performed. -/
def sfReplaceTextWithImage (fs : String → Bool) (editorText : String)
    (placeholder : String) (img : Image) :
    Except String Unit × List AdapterEvent :=
  if strContains editorText placeholder then
    match CopyImageToClipboard fs img.absolutePath with
    | Except.error e =>
      (Except.error ("复制图片失败: " ++ e),
        [AdapterEvent.findSelect placeholder true, AdapterEvent.deleteKey,
         AdapterEvent.copyImage img.absolutePath false])
    | Except.ok _ =>
      (Except.ok (),
        [AdapterEvent.findSelect placeholder true, AdapterEvent.deleteKey,
         AdapterEvent.copyImage img.absolutePath true, AdapterEvent.pasteImage])
  else
    (Except.error ("查找占位符失败: 未找到文本: " ++ placeholder),
      [AdapterEvent.findSelect placeholder false])

/-- `Manager.replaceImageByIndex` (browser.go): invoke the platform's
`ReplaceTextWithImage`; on failure it only logs — no fallback content
is inserted into the editor. -/
def replaceImageByIndexEvents (fs : String → Bool) (editorText : String)
    (platform placeholder : String) (img : Image) : List AdapterEvent :=
  match sfReplaceTextWithImage fs editorText placeholder img with
  | (Except.error e, evs) =>
    evs ++ [AdapterEvent.logError ("[" ++ platform ++ "] 图片替换失败: " ++ e)]
  | (Except.ok _, evs) => evs

/-- The image-replacement stage of `unifiedPublishFlow` with its
per-platform actions: for each image index in order, every platform
performs its replace call (failures do not stop the iteration). -/
def unifiedReplaceStageEvents (fs : String → Bool) (editorText : String)
    (platforms : List String) (art : Article) : List AdapterEvent :=
  (List.range art.images.length).flatMap (fun idx =>
    match art.images.get? idx with
    | none => []
    | some img =>
      platforms.flatMap (fun p =>
        replaceImageByIndexEvents fs editorText p
          ("IMAGE_PLACEHOLDER_" ++ Nat.repr idx) img))

/-- `ImageUploader.insertFallbackText` (common/image_handler.go): the
alt-text fallback `[图片: <altText>]` typed into the editor. The only
call site is `ImageUploader.ProcessArticleWithImages`, the
per-platform body-fill path — not the cross-platform replacement
stage. -/
def insertFallbackText (img : Image) : AdapterEvent :=
  AdapterEvent.typeText ("[图片: " ++ img.altText ++ "]")

def isTypeText : AdapterEvent → Bool
  | AdapterEvent.typeText _ => true
  | _ => false

theorem replaceImageByIndexEvents_no_typeText
    (fs : String → Bool) (ed p ph : String) (img : Image) :
    ∀ e ∈ replaceImageByIndexEvents fs ed p ph img, isTypeText e = false := by
  intro e he
  simp only [replaceImageByIndexEvents, sfReplaceTextWithImage,
    CopyImageToClipboard] at he
  by_cases h1 : strContains ed ph <;> by_cases h2 : fs img.absolutePath <;>
    simp [h1, h2] at he <;>
    rcases he with rfl | rfl | rfl | rfl <;> rfl

theorem findSelect_mem_replaceImageByIndexEvents
    (fs : String → Bool) (ed p ph : String) (img : Image) :
    AdapterEvent.findSelect ph (strContains ed ph) ∈
      replaceImageByIndexEvents fs ed p ph img := by
  by_cases h1 : strContains ed ph <;> by_cases h2 : fs img.absolutePath <;>
    simp [replaceImageByIndexEvents, sfReplaceTextWithImage,
      CopyImageToClipboard, h1, h2]

theorem unifiedReplaceStageEvents_no_typeText
    (fs : String → Bool) (ed : String) (platforms : List String)
    (art : Article) :
    ∀ e ∈ unifiedReplaceStageEvents fs ed platforms art,
      isTypeText e = false := by
  intro e he
  simp only [unifiedReplaceStageEvents, List.mem_flatMap] at he
  obtain ⟨idx, -, he⟩ := he
  cases hg : art.images.get? idx with
  | none =>
    rw [hg] at he
    simp at he
  | some img =>
    rw [hg] at he
    simp only [List.mem_flatMap] at he
    obtain ⟨p, -, he⟩ := he
    exact replaceImageByIndexEvents_no_typeText fs ed p _ img e he

/-- C6 counterexample: in a concrete run (two images, the first one's
source file missing, placeholder document injected), the adapter's
replace operation fails with the missing-file error and the stage
still performs the second image's replacement — but the stage's event
trace contains NO typed-text event at all, so the orchestrator does
not insert the literal alt-text fallback the claim asserts. -/
def fsC6 : String → Bool := fun p => p == "/articles/ok.png"

def imgMissing : Image :=
  { altText := "missing", relativePath := "./missing.png",
    absolutePath := "/articles/missing.png", lineIndex := 0 }

def imgOk : Image :=
  { altText := "ok", relativePath := "./ok.png",
    absolutePath := "/articles/ok.png", lineIndex := 2 }

def artC6 : Article :=
  { title := "t"
    content := ["![missing](./missing.png)", "mid", "![ok](./ok.png)"]
    path := "/articles/a.md"
    images := [imgMissing, imgOk] }

def edC6 : String := PrepareTextWithPlaceholders artC6

theorem C6_counterexample :
    (sfReplaceTextWithImage fsC6 edC6 "IMAGE_PLACEHOLDER_0" imgMissing).fst =
      Except.error "复制图片失败: 图片文件不存在: /articles/missing.png" ∧
    AdapterEvent.copyImage "/articles/ok.png" true ∈
      unifiedReplaceStageEvents fsC6 edC6 platformNames artC6 ∧
    ¬ ∃ e ∈ unifiedReplaceStageEvents fsC6 edC6 platformNames artC6,
        isTypeText e = true :=
  ⟨rfl, by decide, by decide⟩

/-- C6 (amended): an image whose source file does not exist makes the
replace operation return a failure, and the orchestrator's stage still
performs every platform's replace call for every image index — but on
failure it only logs; no literal alt-text fallback is typed into the
editor anywhere in the cross-platform replacement stage (the
`[图片: alt]` fallback exists only in `ImageUploader`'s per-platform
body-fill path). -/
theorem C6_missing_file_logs_and_continues
    (fs : String → Bool) (ed : String) (platforms : List String)
    (art : Article) (idx : Nat) (img : Image)
    (himg : art.images.get? idx = some img)
    (hmiss : fs img.absolutePath = false)
    (hfound : strContains ed ("IMAGE_PLACEHOLDER_" ++ Nat.repr idx) = true) :
    (sfReplaceTextWithImage fs ed ("IMAGE_PLACEHOLDER_" ++ Nat.repr idx) img).fst =
      Except.error ("复制图片失败: " ++ ("图片文件不存在: " ++ img.absolutePath)) ∧
    (∀ j, j < art.images.length → ∀ p ∈ platforms, ∃ b,
      AdapterEvent.findSelect ("IMAGE_PLACEHOLDER_" ++ Nat.repr j) b ∈
        unifiedReplaceStageEvents fs ed platforms art) ∧
    (∀ e ∈ unifiedReplaceStageEvents fs ed platforms art,
      isTypeText e = false) := by
  refine ⟨?_, ?_, unifiedReplaceStageEvents_no_typeText fs ed platforms art⟩
  · simp [sfReplaceTextWithImage, CopyImageToClipboard, hfound, hmiss]
  · intro j hj p hp
    refine ⟨strContains ed ("IMAGE_PLACEHOLDER_" ++ Nat.repr j), ?_⟩
    simp only [unifiedReplaceStageEvents, List.mem_flatMap]
    refine ⟨j, List.mem_range.mpr hj, ?_⟩
    rw [List.get?_eq_get hj]
    simp only [List.mem_flatMap]
    exact ⟨p, hp, findSelect_mem_replaceImageByIndexEvents fs ed p _ _⟩

theorem C6_missing_file_logs_and_continues_witness :
    (sfReplaceTextWithImage fsC6 edC6 ("IMAGE_PLACEHOLDER_" ++ Nat.repr 0) imgMissing).fst =
      Except.error ("复制图片失败: " ++ ("图片文件不存在: " ++ imgMissing.absolutePath)) ∧
    (∀ j, j < artC6.images.length → ∀ p ∈ platformNames, ∃ b,
      AdapterEvent.findSelect ("IMAGE_PLACEHOLDER_" ++ Nat.repr j) b ∈
        unifiedReplaceStageEvents fsC6 edC6 platformNames artC6) ∧
    (∀ e ∈ unifiedReplaceStageEvents fsC6 edC6 platformNames artC6,
      isTypeText e = false) :=
  C6_missing_file_logs_and_continues fsC6 edC6 platformNames artC6 0 imgMissing
    (by decide) (by decide) (by decide)

/-! ### The article parser (article/parser.go) -/

/-- Matcher for the image regexp ``!\[([^\]]*)\]\(([^)]+)\)`` at the
head of the character list: `![`, then the alt text (any characters
except `]`), then `](`, then a non-empty path (any characters except
`)`), then `)`. Returns alt text, path, and the remainder after the
match. The Go regexp engine's greedy classes are deterministic here
because each class is bounded by the required closing character. -/
def tryMatchAt : List Char → Option (String × String × List Char)
  | '!' :: '[' :: rest =>
    let alt := rest.takeWhile (fun c => c ≠ ']')
    match rest.dropWhile (fun c => c ≠ ']') with
    | ']' :: '(' :: rest2 =>
      let path := rest2.takeWhile (fun c => c ≠ ')')
      match path, rest2.dropWhile (fun c => c ≠ ')') with
      | _ :: _, ')' :: rest3 => some (alt.asString, path.asString, rest3)
      | _, _ => none
    | _ => none
  | _ => none

/-- `regexp.FindAllStringSubmatch(line, -1)` for the image regexp:
scan left to right, taking leftmost non-overlapping matches. `fuel`
bounds the recursion; each step consumes at least one character, so
`cs.length` fuel always suffices. -/
def findImageMatchesAux : Nat → List Char → List (String × String)
  | 0, _ => []
  | _fuel + 1, [] => []
  | fuel + 1, c :: rest =>
    match tryMatchAt (c :: rest) with
    | some (alt, path, rest2) => (alt, path) :: findImageMatchesAux fuel rest2
    | none => findImageMatchesAux fuel rest

def findImageMatches (line : String) : List (String × String) :=
  findImageMatchesAux line.data.length line.data

/-- The filesystem path operations `parseImages` delegates to the Go
standard library for: `filepath.Dir`, `filepath.Join`, and
`filepath.Abs`. They are parameters of the embedding (external
collaborators), while the parser's own three-way resolution rule is
modelled explicitly. -/
structure PathOps where
  dirOf : String → String
  joinPath : String → String → String
  toAbs : String → String

/-- The `absolutePath` computed by `Parser.parseImages` for a match
with path `relativePath`: a leading `./` is stripped and the rest is
joined to the article's directory; a leading `/` is kept as is; any
other path is joined to the article's directory; finally
`filepath.Abs` is applied to the result. -/
def resolveImagePath (po : PathOps) (articlePath relativePath : String) : String :=
  if relativePath.startsWith "./" then
    po.toAbs (po.joinPath (po.dirOf articlePath) (relativePath.drop 2))
  else if relativePath.startsWith "/" then
    po.toAbs relativePath
  else
    po.toAbs (po.joinPath (po.dirOf articlePath) relativePath)

/-- The body of `Parser.parseImages` (article/parser.go): for each
content line (with running index `i`), each regexp match on the line
yields one `Image` whose `lineIndex` is `i`. -/
def parseImagesAux (po : PathOps) (articlePath : String) :
    List String → Nat → List Image
  | [], _ => []
  | line :: rest, i =>
    (findImageMatches line).map (fun m =>
      { altText := m.fst, relativePath := m.snd,
        absolutePath := resolveImagePath po articlePath m.snd,
        lineIndex := (i : Int) }) ++
      parseImagesAux po articlePath rest (i + 1)

def parseImages (po : PathOps) (content : List String)
    (articlePath : String) : List Image :=
  parseImagesAux po articlePath content 0

/-- Model of Go `strings.TrimSpace`: drop whitespace from both ends.
(Defined on the character list so that it evaluates inside the
kernel.) -/
def strTrim (s : String) : String :=
  (((s.data.dropWhile Char.isWhitespace).reverse.dropWhile
      Char.isWhitespace).reverse).asString

/-- `Parser.ParseFile` after the file has been read into its line list
(the file I/O itself is an external collaborator): an empty file is an
error; the title is the trimmed FIRST line and must be non-blank; the
remaining lines are the body, from which the images are parsed. -/
def ParseFileLines (po : PathOps) (filePath : String)
    (lines : List String) : Except String Article :=
  match lines with
  | [] => Except.error "文件为空"
  | l0 :: rest =>
    if strTrim l0 = "" then Except.error "标题不能为空"
    else
      Except.ok
        { title := strTrim l0, content := rest, path := filePath,
          images := parseImages po rest filePath }

/-- Concrete path operations used in the closed counterexamples (the
interesting part of the claims does not depend on them). -/
def simplePathOps : PathOps :=
  { dirOf := fun p => (p.dropWhile (fun c => c ≠ '/')).takeWhile (fun _ => false) ++ "/articles"
    joinPath := fun a b => a ++ "/" ++ b
    toAbs := fun p => p }

theorem parseImagesAux_lineIndex_bounds (po : PathOps) (articlePath : String) :
    ∀ (ls : List String) (i : Nat) (img : Image),
      img ∈ parseImagesAux po articlePath ls i →
      (i : Int) ≤ img.lineIndex ∧ img.lineIndex < (i : Int) + ls.length := by
  intro ls
  induction ls with
  | nil => intro i img h; simp [parseImagesAux] at h
  | cons line rest ih =>
    intro i img h
    simp only [parseImagesAux, List.mem_append, List.mem_map] at h
    rcases h with ⟨m, _, rfl⟩ | h
    · simp only [List.length_cons]
      refine ⟨le_refl _, ?_⟩
      push_cast
      omega
    · have := ih (i + 1) img h
      simp only [List.length_cons]
      push_cast at this ⊢
      omega

theorem pairwise_of_total {α : Type _} (R : α → α → Prop)
    (h : ∀ a b, R a b) : ∀ l : List α, l.Pairwise R := by
  intro l
  induction l with
  | nil => exact List.Pairwise.nil
  | cons x xs ih => exact List.Pairwise.cons (fun y _ => h x y) ih

theorem parseImagesAux_lineIndex_sorted (po : PathOps) (articlePath : String) :
    ∀ (ls : List String) (i : Nat),
      (parseImagesAux po articlePath ls i).Pairwise
        (fun a b => a.lineIndex ≤ b.lineIndex) := by
  intro ls
  induction ls with
  | nil => intro i; simp [parseImagesAux]
  | cons line rest ih =>
    intro i
    simp only [parseImagesAux]
    rw [List.pairwise_append]
    refine ⟨?_, ih (i + 1), ?_⟩
    · apply List.pairwise_map.mpr
      exact pairwise_of_total _ (fun a b => le_refl _) _
    · intro a ha b hb
      simp only [List.mem_map] at ha
      obtain ⟨m, _, rfl⟩ := ha
      have := parseImagesAux_lineIndex_bounds po articlePath rest (i + 1) b hb
      simp only
      push_cast at this ⊢
      omega

theorem parseImagesAux_lineIndex_nodup (po : PathOps) (articlePath : String) :
    ∀ (ls : List String),
      (∀ line ∈ ls, (findImageMatches line).length ≤ 1) →
      ∀ (i : Nat),
        (parseImagesAux po articlePath ls i).Pairwise
          (fun a b => a.lineIndex ≠ b.lineIndex) := by
  intro ls
  induction ls with
  | nil => intro _ i; simp [parseImagesAux]
  | cons line rest ih =>
    intro hone i
    simp only [parseImagesAux]
    rw [List.pairwise_append]
    refine ⟨?_, ih (fun l hl => hone l (List.mem_cons_of_mem line hl)) (i + 1), ?_⟩
    · have h1 : (findImageMatches line).length ≤ 1 :=
        hone line (List.mem_cons_self line rest)
      rcases hm : findImageMatches line with _ | ⟨m, tl⟩
      · simp
      · rcases tl with _ | ⟨m2, tl2⟩
        · simp
        · rw [hm] at h1
          simp at h1
    · intro a ha b hb
      simp only [List.mem_map] at ha
      obtain ⟨m, _, rfl⟩ := ha
      have := parseImagesAux_lineIndex_bounds po articlePath rest (i + 1) b hb
      simp only
      push_cast at this ⊢
      omega

theorem parseImagesAux_absolutePath (po : PathOps) (articlePath : String) :
    ∀ (ls : List String) (i : Nat) (img : Image),
      img ∈ parseImagesAux po articlePath ls i →
      img.absolutePath = resolveImagePath po articlePath img.relativePath := by
  intro ls
  induction ls with
  | nil => intro i img h; simp [parseImagesAux] at h
  | cons line rest ih =>
    intro i img h
    simp only [parseImagesAux, List.mem_append, List.mem_map] at h
    rcases h with ⟨m, _, rfl⟩ | h
    · rfl
    · exact ih (i + 1) img h

/-! ### Claim theorems: the parser -/

/-- The article parsed from a body line holding two image tokens. -/
def parsedTwoPerLine : List Image :=
  parseImages simplePathOps ["![a](p) ![b](q)"] "/articles/a.md"

/-- C7 counterexample: a single body line containing two image tokens
yields two distinct images with the SAME `lineIndex`, so the parsed
images do not satisfy "for any two distinct images their lineIndex
values differ". -/
theorem C7_counterexample :
    parsedTwoPerLine.length = 2 ∧
    parsedTwoPerLine.map Image.lineIndex = [0, 0] ∧
    parsedTwoPerLine.map Image.altText = ["a", "b"] ∧
    ¬ parsedTwoPerLine.Pairwise (fun a b => a.lineIndex ≠ b.lineIndex) := by
  decide

/-- C7 (amended): for EVERY parsed article — multi-token lines
included — each image's `lineIndex` is a valid index into the body
lines and the `lineIndex` values are nondecreasing in parse order;
the `lineIndex` values are additionally pairwise distinct whenever
every body line contains at most one image token (a line with several
tokens yields several images sharing its index). -/
theorem C7_parser_invariant (po : PathOps) (articlePath : String)
    (content : List String) :
    (∀ img ∈ parseImages po content articlePath,
      0 ≤ img.lineIndex ∧ img.lineIndex < (content.length : Int)) ∧
    (parseImages po content articlePath).Pairwise
      (fun a b => a.lineIndex ≤ b.lineIndex) ∧
    ((∀ line ∈ content, (findImageMatches line).length ≤ 1) →
      (parseImages po content articlePath).Pairwise
        (fun a b => a.lineIndex ≠ b.lineIndex)) := by
  refine ⟨?_, parseImagesAux_lineIndex_sorted po articlePath content 0,
    fun hone => parseImagesAux_lineIndex_nodup po articlePath content hone 0⟩
  intro img h
  have := parseImagesAux_lineIndex_bounds po articlePath content 0 img h
  push_cast at this ⊢
  omega

theorem C7_parser_invariant_witness :
    (∀ img ∈ parseImages simplePathOps ["x", "![a](./p.png)"] "/articles/a.md",
      0 ≤ img.lineIndex ∧
        img.lineIndex < ((["x", "![a](./p.png)"] : List String).length : Int)) ∧
    (parseImages simplePathOps ["x", "![a](./p.png)"] "/articles/a.md").Pairwise
      (fun a b => a.lineIndex ≤ b.lineIndex) ∧
    (parseImages simplePathOps ["x", "![a](./p.png)"] "/articles/a.md").Pairwise
      (fun a b => a.lineIndex ≠ b.lineIndex) :=
  ⟨(C7_parser_invariant simplePathOps "/articles/a.md" ["x", "![a](./p.png)"]).1,
   (C7_parser_invariant simplePathOps "/articles/a.md" ["x", "![a](./p.png)"]).2.1,
   (C7_parser_invariant simplePathOps "/articles/a.md" ["x", "![a](./p.png)"]).2.2
     (by decide)⟩

/-- C8 counterexample: a file whose first line is blank and whose
second line is "Hello" fails to parse (`ParseFile` takes the FIRST
line as the title and errors when it is blank) — the claim's "title
equal to the file's first non-blank line" would require the parse to
succeed with title "Hello". -/
theorem C8_counterexample :
    ParseFileLines simplePathOps "/articles/a.md" ["", "Hello"] =
      Except.error "标题不能为空" ∧
    strTrim "Hello" ≠ "" :=
  ⟨rfl, by decide⟩

/-- C8 (amended): parsing yields a title equal to the trimmed FIRST
line of the file — parsing fails when the file is empty or its first
line is blank — a body equal to the remaining lines, and each inline
`![alt](path)` token resolved against the file's directory by the
parser's three-way rule (captured by `resolveImagePath`, on top of the
`filepath` primitives). -/
theorem C8_parse_file_shape (po : PathOps) (filePath l0 : String)
    (rest : List String) (htitle : strTrim l0 ≠ "") :
    ParseFileLines po filePath (l0 :: rest) =
      Except.ok { title := strTrim l0, content := rest, path := filePath,
                  images := parseImages po rest filePath } ∧
    (∀ img ∈ parseImages po rest filePath,
      img.absolutePath = resolveImagePath po filePath img.relativePath) ∧
    ParseFileLines po filePath [] = Except.error "文件为空" := by
  refine ⟨?_, parseImagesAux_absolutePath po filePath rest 0, rfl⟩
  simp only [ParseFileLines, if_neg htitle]

theorem C8_parse_file_shape_witness :
    ParseFileLines simplePathOps "/articles/a.md" ("Hello" :: ["", "![a](./p.png)"]) =
      Except.ok { title := strTrim "Hello", content := ["", "![a](./p.png)"],
                  path := "/articles/a.md",
                  images := parseImages simplePathOps ["", "![a](./p.png)"] "/articles/a.md" } ∧
    (∀ img ∈ parseImages simplePathOps ["", "![a](./p.png)"] "/articles/a.md",
      img.absolutePath =
        resolveImagePath simplePathOps "/articles/a.md" img.relativePath) ∧
    ParseFileLines simplePathOps "/articles/a.md" [] = Except.error "文件为空" :=
  C8_parse_file_shape simplePathOps "/articles/a.md" "Hello" ["", "![a](./p.png)"]
    (by decide)

end AutoBlog
